import Mathlib

/-!
A verification development for the conversational inventory manager
(`src/services/ingredients.py`, `src/sheets/queries.py`,
`src/bot/ingredients_handler.py`).

Embedding conventions:
* Python floats are modelled as exact rationals (`ℚ`); the `f"{x:.4f}"`
  string formatting applied before cells are stored is a presentation
  detail of the sheet backend and is elided (stored numeric cells are
  modelled by their values).  Wherever the Python code would raise
  `ZeroDivisionError` the model branches explicitly, since `x / 0 = 0`
  in `ℚ`.
* `str.strip().lower()` is modelled by `pynorm` (ASCII case folding,
  which is exact for the unit and name tokens the system handles).
* Sheet rows are modelled as typed records.  Rows of the `Units` sheet
  that are missing one of the three required columns are skipped by
  every loop in `get_conversion_rate`, which is the same as not being
  in the table, so the model omits them; a `Conversion_Rate` cell whose
  text does not parse as a number is modelled as `none`.
* Remote writes can fail (`update_row_by_id` / `append_row` /
  `update_config_value` return `False`); each modelled operation takes
  an `IoFate` record of booleans saying which backend writes succeed.
* Functions that would raise an uncaught Python exception are modelled
  as returning an explicit crash status, with the state as it is at the
  point of the raise.
-/

/-- One row of the `Ingredients` sheet, with the numeric cells parsed.
Columns: `ID`, `Name`, `Unit`, `Quantity`, `Cost Per Unit`. -/
structure Ingredient where
  id : String
  name : String
  unit : String
  quantity : ℚ
  cost_per_unit : ℚ
deriving DecidableEq, Repr

/-- One row of the `Units` sheet: `From_Unit`, `To_Unit`, `Conversion_Rate`.
`rate = none` models a `Conversion_Rate` cell that does not parse as a
float (the `ValueError` branches that `continue`). -/
structure ConvRule where
  from_unit : String
  to_unit : String
  rate : Option ℚ
deriving DecidableEq, Repr

/-- One row appended to the `Price_History` sheet by `log_price_history`. -/
structure PriceLog where
  ingredient_id : String
  old_cost_per_unit : ℚ
  new_cost_per_unit : ℚ
deriving DecidableEq, Repr

/-- The sheets touched by the ingredient service: the `Ingredients`
table, the `Units` conversion table, the `Config` sheet (key/value
rows backing the id counter) and the `Price_History` audit sheet. -/
structure Db where
  ingredients : List Ingredient
  units : List ConvRule
  config : List (String × String)
  history : List PriceLog
deriving DecidableEq, Repr

/-- Which backend writes succeed during one service call:
`updateOk` for `queries.update_row_by_id`, `appendOk` for
`queries.append_row` on `Ingredients`, `histOk` for the
`Price_History` append, `configWriteOk` for `update_config_value`. -/
structure IoFate where
  updateOk : Bool
  appendOk : Bool
  histOk : Bool
  configWriteOk : Bool
deriving DecidableEq, Repr

def pyIsSpace (c : Char) : Bool := c.isWhitespace

/-- Python `str.strip()` on the character list. -/
def pyStrip (cs : List Char) : List Char :=
  ((cs.dropWhile pyIsSpace).reverse.dropWhile pyIsSpace).reverse

/-- Python `str.lower()` on one character (ASCII range). -/
def pyLowerChar (c : Char) : Char :=
  if 65 ≤ c.toNat ∧ c.toNat ≤ 90 then Char.ofNat (c.toNat + 32) else c

/-- `s.strip().lower()`, the normalization applied throughout the service. -/
def pynorm (s : String) : String := ⟨(pyStrip s.data).map pyLowerChar⟩

/-- Direct scan of `get_conversion_rate` (step 3, lines 60-75): first rule
whose normalized `From_Unit`/`To_Unit` match and whose rate parses wins;
rules whose rate cell does not parse are skipped (`continue`).  The
arguments `f t` are already normalized by the caller. -/
def findDirect (f t : String) : List ConvRule → Option ℚ
  | [] => none
  | r :: rs =>
    if pynorm r.from_unit = f ∧ pynorm r.to_unit = t then
      match r.rate with
      | some x => some x
      | none => findDirect f t rs
    else findDirect f t rs

/-- Reverse scan of `get_conversion_rate` (step 4, lines 79-98): first rule
matching in the opposite direction with a parseable, nonzero rate yields
`1/rate`; a zero or unparseable rate is skipped (`continue`). -/
def findReverse (f t : String) : List ConvRule → Option ℚ
  | [] => none
  | r :: rs =>
    if pynorm r.from_unit = t ∧ pynorm r.to_unit = f then
      match r.rate with
      | some x => if x = 0 then findReverse f t rs else some (1 / x)
      | none => findReverse f t rs
    else findReverse f t rs

/-- `get_conversion_rate(from_unit, to_unit)` (lines 31-102), with the
`Units` table passed explicitly (the code fetches it with
`queries.get_all_records("Units")`; a failed fetch returns `None`, a
case outside the claims).  Identity short-circuit before the fetch,
then the direct scan, then the reverse scan, else `None`. -/
def get_conversion_rate (from_unit to_unit : String) (table : List ConvRule) : Option ℚ :=
  let f := pynorm from_unit
  let t := pynorm to_unit
  if f = t then some 1
  else
    match findDirect f t table with
    | some r => some r
    | none => findReverse f t table

/-- `calculate_converted_quantity(input_quantity, input_unit, target_unit)`
(lines 257-283): equal normalized units return the quantity unchanged,
otherwise multiply by the resolved rate; unresolvable rate gives `None`. -/
def calculate_converted_quantity (input_quantity : ℚ) (input_unit target_unit : String)
    (table : List ConvRule) : Option ℚ :=
  let iu := pynorm input_unit
  let tu := pynorm target_unit
  if iu = tu then some input_quantity
  else
    match get_conversion_rate iu tu table with
    | none => none
    | some rate => some (input_quantity * rate)

/-- `_find_ingredient_by_name(name)` (lines 220-255): first record whose
normalized `Name` equals the normalized search name. -/
def findIng (name : String) : List Ingredient → Option Ingredient
  | [] => none
  | r :: rs => if pynorm r.name = pynorm name then some r else findIng name rs

/-- The fields an `updates` dict can carry into `queries.update_row_by_id`
on the `Ingredients` sheet: `Quantity` and/or `Cost Per Unit`. -/
structure RowUpdates where
  quantity : Option ℚ
  cost : Option ℚ
deriving DecidableEq, Repr

/-- Apply an updates dict to one row (cells not in the dict keep their value). -/
def applyRow (u : RowUpdates) (r : Ingredient) : Ingredient :=
  ⟨r.id, r.name, r.unit, u.quantity.getD r.quantity, u.cost.getD r.cost_per_unit⟩

/-- `gspread.Worksheet.find(row_id)`: the first row whose ID cell equals
`rid` (the sheet's ID lives in the first column). -/
def findRowById (rid : String) : List Ingredient → Option Ingredient
  | [] => none
  | r :: rs => if r.id = rid then some r else findRowById rid rs

/-- Update the first row whose ID equals `rid`. -/
def applyUpdFirst (rid : String) (u : RowUpdates) : List Ingredient → List Ingredient
  | [] => []
  | r :: rs => if r.id = rid then applyRow u r :: rs else r :: applyUpdFirst rid u rs

/-- `queries.update_row_by_id(sheet, row_id, data)` (queries.py lines
167-230) on the `Ingredients` sheet: locate the row by ID and batch-update
the given cells; returns `False` (leaving the sheet unchanged) when the
row is missing or the backend write fails. -/
def update_row_by_id (l : List Ingredient) (rid : String) (u : RowUpdates)
    (backendOk : Bool) : Bool × List Ingredient :=
  if backendOk then
    match findRowById rid l with
    | some _ => (true, applyUpdFirst rid u l)
    | none => (false, l)
  else (false, l)

/-- `log_price_history` (lines 107-138): meant as a best-effort append of
a before/after cost record to `Price_History` — but line 124 assigns
`success = queries.append_row(...)` *without awaiting* the async
`append_row`.  The coroutine object is created, never run, and is
truthy, so the function logs success and returns `True` while appending
nothing: the audit state never changes, whatever the backend's fate.
(The `entry` argument records what the call was asked to log.) -/
def log_price_history (db : Db) (entry : PriceLog) : Db :=
  db

/-- The `Price_History` append as `log_price_history` plainly intends it
(its line 124 repaired with the missing `await`): append the entry when
the backend write succeeds, swallow the failure otherwise.  Used only
inside the explicitly repaired `*_intended` variants. -/
def appendPriceLogRepaired (db : Db) (ok : Bool) (entry : PriceLog) : Db :=
  if ok then ⟨db.ingredients, db.units, db.config, db.history ++ [entry]⟩ else db

/-- `find_records("Config", "Key", key)` as used by `read_config_value`
(queries.py lines 277-293): first row whose normalized `Key` cell equals
the normalized key; its `Value` cell is returned. -/
def findConfigRow (key : String) : List (String × String) → Option (String × String)
  | [] => none
  | kv :: rest => if pynorm kv.1 = pynorm key then some kv else findConfigRow key rest

def read_config_value (config : List (String × String)) (key : String) : Option String :=
  (findConfigRow key config).map (fun kv => kv.2)

/-- The row rewrite of `update_row_by_filter` (queries.py lines 115-163):
`gspread.Worksheet.find` locates the first `Key` cell *exactly* equal to
the key (no normalization, unlike the read path) and the `Value` cell of
that row is overwritten; `none` when no cell matches. -/
def updateConfigFirstExact (key newval : String) : List (String × String) →
    Option (List (String × String))
  | [] => none
  | kv :: rest =>
    if kv.1 = key then some ((kv.1, newval) :: rest)
    else (updateConfigFirstExact key newval rest).map (fun c => kv :: c)

/-- `update_config_value(key, new_value)` (queries.py lines 295-312). -/
def update_config_value (config : List (String × String)) (key newval : String)
    (backendOk : Bool) : Bool × List (String × String) :=
  if backendOk then
    match updateConfigFirstExact key newval config with
    | some cfg => (true, cfg)
    | none => (false, config)
  else (false, config)

/-- `startswith` on character lists. -/
def listStartsWith : List Char → List Char → Bool
  | _, [] => true
  | [], _ :: _ => false
  | c :: cs, p :: ps => c = p && listStartsWith cs ps

/-- Fuelled worker for Python `str.replace(pat, '')`: scan left to right,
deleting each non-overlapping occurrence of `pat`. -/
def replaceDelAux (pat : List Char) : Nat → List Char → List Char
  | 0, s => s
  | _ + 1, [] => []
  | fuel + 1, c :: cs =>
    if listStartsWith (c :: cs) pat then replaceDelAux pat fuel ((c :: cs).drop pat.length)
    else c :: replaceDelAux pat fuel cs

/-- Python `s.replace(pat, '')`.  Each scan step consumes at least one
character when `pat` is nonempty, so `s.length` is enough fuel; an empty
pattern leaves the string unchanged, as in Python. -/
def pyReplaceDel (s pat : List Char) : List Char :=
  if pat.isEmpty then s else replaceDelAux pat s.length s

/-- Python `int(text)` restricted to plain digit strings (the shapes the
counter values take); anything else raises `ValueError`, i.e. `none`. -/
def parseDigits (cs : List Char) : Option Nat :=
  if cs ≠ [] ∧ cs.all (fun c => c.isDigit) then
    some (cs.foldl (fun n c => 10 * n + (c.toNat - 48)) 0)
  else none

/-- Python `str.zfill(w)` for unsigned strings: left-pad with `'0'` to
width `w`. -/
def zfillS (w : Nat) (s : String) : String :=
  ⟨List.replicate (w - s.data.length) '0' ++ s.data⟩

/-- `get_next_unique_id(key, prefix)` (queries.py lines 314-350): read the
counter value, strip the prefix with `str.replace`, parse the digits,
re-pad the incremented number to the width of the current value, write the
next value back, and return the *previous* value as the allocated id;
`None` (counter untouched, except that a missing write leaves the read
state) when the record is absent, empty, unparseable, or the write fails. -/
def get_next_unique_id (config : List (String × String)) (key pre : String)
    (writeOk : Bool) : Option String × List (String × String) :=
  match read_config_value config key with
  | none => (none, config)
  | some cur =>
    if cur = "" then (none, config)
    else
      match parseDigits (pyReplaceDel cur.data pre.data) with
      | none => (none, config)
      | some n =>
        let padding := cur.length - pre.length
        let next_id := pre ++ zfillS padding (Nat.repr (n + 1))
        match update_config_value config key next_id writeOk with
        | (true, cfg) => (some cur, cfg)
        | (false, _) => (none, config)

/-- The Python value `add_new_ingredient` hands back as the new id.  As
the source stands, line 179 never awaits `queries.get_next_unique_id`,
so what flows into the success message is the un-awaited coroutine
object, not an id string. -/
inductive AllocId where
  | idStr (s : String)
  | coroutineObject
deriving DecidableEq, Repr

/-- Outcomes of the service calls; the code returns `(bool, message)`
pairs — the human message strings are mapped to these tags. -/
inductive OpStatus where
  | notFound
  | invalidQuantity
  | conversionNotFound
  | insufficientStock
  | invalidAction
  | persistenceError
  | stockAdjusted
  | stockAdjustedAndPriceUpdated
  | newIngredientAdded (id : AllocId)
  | ok
  /-- an uncaught Python exception escapes the service call -/
  | crashNameError
  | crashZeroDivision
deriving DecidableEq, Repr

/-- `add_new_ingredient(name, stock, unit, cost)` (lines 168-217) as the
source executes it.  Line 179 assigns
`new_id = queries.get_next_unique_id(NEXT_ING_ID_KEY, ID_PREFIX)`
without `await`: the counter coroutine never runs (no `Config` read or
write ever happens) and `new_id` is the coroutine object, which is
truthy, so the `if not new_id` guard does not fire.  Line 207 then tests
`if queries.append_row(...)` — again un-awaited, again truthy — so no
row is appended and the success branch returns `new_id` (the coroutine
object).  Net effect on every input: no state change, "success" with a
non-string id. -/
def add_new_ingredient (name : String) (stock : ℚ) (unit : String) (cost : ℚ)
    (db : Db) (io : IoFate) : AllocId × Db :=
  (AllocId.coroutineObject, db)

/-- `add_new_ingredient` as its own code and docstring plainly intend it
(the missing `await`s at lines 179 and 207 repaired): allocate an id
from the `NEXT_ING_ID` counter with prefix `ING`, then append the new
row; on append failure the already-incremented counter stays consumed. -/
def add_new_ingredient_intended (name : String) (stock : ℚ) (unit : String) (cost : ℚ)
    (db : Db) (io : IoFate) : Option String × Db :=
  match get_next_unique_id db.config "NEXT_ING_ID" "ING" io.configWriteOk with
  | (none, _) => (none, db)
  | (some new_id, cfg) =>
    if io.appendOk then
      (some new_id,
        ⟨db.ingredients ++ [⟨new_id, name, unit, stock, cost⟩], db.units, cfg, db.history⟩)
    else (none, ⟨db.ingredients, db.units, cfg, db.history⟩)

/-- The inline unit-conversion block of `process_ingredient_purchase`
(lines 618-644): matching normalized units use the purchased quantity as
is, otherwise `get_conversion_rate(unit, current_unit)` scales it; a
missing rate aborts the purchase. -/
def purchaseConvertedQty (quantity : ℚ) (unit : String) (r : Ingredient)
    (table : List ConvRule) : Option ℚ :=
  if pynorm r.unit = pynorm unit then some quantity
  else
    match get_conversion_rate unit r.unit table with
    | none => none
    | some rate => some (quantity * rate)

/-- `process_ingredient_purchase(name, quantity, unit, total_cost)`
(lines 576-714) as the source executes it.  Look the name up; a zero
purchase quantity raises `ZeroDivisionError` at `total_cost / quantity`,
caught and reported.  Existing ingredient: convert the quantity (a
conversion that yields zero hits the unguarded division on line 654,
`ZeroDivisionError` escapes, nothing written); then line 677 assigns
`update_success = queries.update_row_by_id(...)` *without awaiting* the
async call — the write coroutine is created, discarded, and is truthy,
so the `if not update_success` guard never fires and the function
reports success with *nothing written to the sheet*, whatever the
backend's fate.  Line 665 does await `log_price_history`, but that
function itself never appends (see `log_price_history`).  Unknown
ingredient: `add_new_ingredient`, which likewise writes nothing and
returns the truthy coroutine object as the "id", so the purchase
reports a new ingredient that was never created. -/
def process_ingredient_purchase (name : String) (quantity : ℚ) (unit : String)
    (total_cost : ℚ) (db : Db) (io : IoFate) : (Bool × OpStatus) × Db :=
  let existing := findIng name db.ingredients
  if quantity = 0 then ((false, .invalidQuantity), db)
  else
    match existing with
    | some r =>
      match purchaseConvertedQty quantity unit r db.units with
      | none => ((false, .conversionNotFound), db)
      | some k =>
        if k = 0 then ((false, .crashZeroDivision), db)
        else
          let new_unit_cost := total_cost / k
          if new_unit_cost > r.cost_per_unit then
            ((true, .stockAdjustedAndPriceUpdated),
              log_price_history db ⟨r.id, r.cost_per_unit, new_unit_cost⟩)
          else
            ((true, .stockAdjusted), db)
    | none =>
      match add_new_ingredient name quantity unit (total_cost / quantity) db io with
      | (iid, db2) => ((true, .newIngredientAdded iid), db2)

/-- `process_ingredient_purchase` as the surrounding code and the spec
plainly intend it: the missing `await`s (line 677, and those inside
`log_price_history` and `add_new_ingredient`) repaired, so the writes
execute gated on the backend fate.  Existing ingredient: add the
converted quantity to the stock and update the cost cell only when the
batch unit cost exceeds the stored one (logging to `Price_History`
before the row write in that case).  Unknown ingredient: create one new
row with unit cost `total_cost / quantity`. -/
def process_ingredient_purchase_intended (name : String) (quantity : ℚ) (unit : String)
    (total_cost : ℚ) (db : Db) (io : IoFate) : (Bool × OpStatus) × Db :=
  let existing := findIng name db.ingredients
  if quantity = 0 then ((false, .invalidQuantity), db)
  else
    match existing with
    | some r =>
      match purchaseConvertedQty quantity unit r db.units with
      | none => ((false, .conversionNotFound), db)
      | some k =>
        let new_quantity := r.quantity + k
        if k = 0 then ((false, .crashZeroDivision), db)
        else
          let new_unit_cost := total_cost / k
          if new_unit_cost > r.cost_per_unit then
            let db1 := appendPriceLogRepaired db io.histOk ⟨r.id, r.cost_per_unit, new_unit_cost⟩
            match update_row_by_id db1.ingredients r.id ⟨some new_quantity, some new_unit_cost⟩ io.updateOk with
            | (true, ings) => ((true, .stockAdjustedAndPriceUpdated), ⟨ings, db1.units, db1.config, db1.history⟩)
            | (false, _) => ((false, .persistenceError), db1)
          else
            match update_row_by_id db.ingredients r.id ⟨some new_quantity, none⟩ io.updateOk with
            | (true, ings) => ((true, .stockAdjusted), ⟨ings, db.units, db.config, db.history⟩)
            | (false, _) => ((false, .persistenceError), db)
    | none =>
      match add_new_ingredient_intended name quantity unit (total_cost / quantity) db io with
      | (some iid, db2) => ((true, .newIngredientAdded (AllocId.idStr iid)), db2)
      | (none, db2) => ((false, .persistenceError), db2)

/-- `update_ingredient_cost_per_unit(name, input_quantity, input_unit,
new_price)` (lines 345-414) as the source executes it: convert the
stated batch quantity to the stored unit, compute
`new_price / converted_quantity`, and write the cost cell
unconditionally (no comparison with the stored cost) — this write, line
395, *is* awaited and real.  On success the code then awaits
`log_price_history`, which never appends (its own `append_row` call is
not awaited), so the audit trail stays unchanged. -/
def update_ingredient_cost_per_unit (name : String) (input_quantity : ℚ)
    (input_unit : String) (new_price : ℚ) (db : Db) (io : IoFate) : Bool × Db :=
  match findIng name db.ingredients with
  | none => (false, db)
  | some r =>
    match calculate_converted_quantity input_quantity input_unit r.unit db.units with
    | none => (false, db)
    | some k =>
      if k = 0 then (false, db)
      else
        let new_cost := new_price / k
        match update_row_by_id db.ingredients r.id ⟨none, some new_cost⟩ io.updateOk with
        | (true, ings) =>
          (true, log_price_history ⟨ings, db.units, db.config, db.history⟩
            ⟨r.id, r.cost_per_unit, new_cost⟩)
        | (false, _) => (false, db)

/-- `update_ingredient_cost_per_unit` with the one remaining slip — the
missing `await` inside `log_price_history` — repaired: identical to the
faithful definition except that the successful cost write is followed by
a real `Price_History` append. -/
def update_ingredient_cost_per_unit_intended (name : String) (input_quantity : ℚ)
    (input_unit : String) (new_price : ℚ) (db : Db) (io : IoFate) : Bool × Db :=
  match findIng name db.ingredients with
  | none => (false, db)
  | some r =>
    match calculate_converted_quantity input_quantity input_unit r.unit db.units with
    | none => (false, db)
    | some k =>
      if k = 0 then (false, db)
      else
        let new_cost := new_price / k
        match update_row_by_id db.ingredients r.id ⟨none, some new_cost⟩ io.updateOk with
        | (true, ings) =>
          (true, appendPriceLogRepaired ⟨ings, db.units, db.config, db.history⟩ io.histOk
            ⟨r.id, r.cost_per_unit, new_cost⟩)
        | (false, _) => (false, db)

/-- The first `adjust_ingredient_stock` definition (lines 488-572), the
action-verb variant.  It is *shadowed* by the second definition of the
same name at line 806 and is therefore unreachable in the module, but it
is the variant that carries the negative-result guard (lines 551-553),
which fires *before* any write.  (Its own write at line 562 is, like the
purchase path's, never awaited: past the guard it would report success
without writing — dead code either way.) -/
def adjust_ingredient_stock_shadowed (name action : String) (input_quantity : ℚ)
    (input_unit : String) (db : Db) (io : IoFate) : (Bool × OpStatus) × Db :=
  let action_clean := pynorm action
  match findIng name db.ingredients with
  | none => ((false, .notFound), db)
  | some r =>
    let conv : Option ℚ :=
      if pynorm r.unit = pynorm input_unit then some input_quantity
      else
        match get_conversion_rate input_unit r.unit db.units with
        | none => none
        | some rate => some (input_quantity * rate)
    match conv with
    | none => ((false, .conversionNotFound), db)
    | some amt =>
      let newq : Option ℚ :=
        if action_clean = "increase" ∨ action_clean = "add" then some (r.quantity + amt)
        else if action_clean = "decrease" ∨ action_clean = "subtract" ∨ action_clean = "adjust" then
          some (r.quantity - amt)
        else none
      match newq with
      | none => ((false, .invalidAction), db)
      | some new_quantity =>
        if new_quantity < 0 then ((false, .insufficientStock), db)
        else ((true, .stockAdjusted), db)

/-- The second, *effective* `adjust_ingredient_stock` definition (lines
806-864), the `is_addition` variant reached by the usage/addition
handlers (and, being the module-level binding, by every caller).  Its
body reads the stock via the module constant `STOCK_QUANTITY_KEY`
(line 822), which is defined nowhere in the repository, so as soon as an
ingredient record is found the call raises `NameError` — before any
arithmetic or write.  The rest of the body (which has no negative-stock
guard) is unreachable as written. -/
def adjust_ingredient_stock (name : String) (input_quantity : ℚ) (input_unit : String)
    (is_addition : Bool) (db : Db) (io : IoFate) : (Bool × OpStatus) × Db :=
  match findIng name db.ingredients with
  | none => ((false, .notFound), db)
  | some _ => ((false, .crashNameError), db)

/-- The body of the effective `adjust_ingredient_stock` (lines 806-864)
with the undefined `STOCK_QUANTITY_KEY` read as the `Quantity` column it
plainly stands for (the most favorable repair for the claim).  Note the
subtraction path writes `current - adjustment` with no negative-result
check — the source itself remarks `Optional: Add a check here for
negative stock and warn/block if necessary` (line 838).  (After a
successful write the source would additionally raise `NameError` on the
undefined `log_stock_history`; the write has persisted by then.) -/
def adjust_ingredient_stock_fixedkey (name : String) (input_quantity : ℚ)
    (input_unit : String) (is_addition : Bool) (db : Db) (io : IoFate) :
    (Bool × OpStatus) × Db :=
  match findIng name db.ingredients with
  | none => ((false, .notFound), db)
  | some r =>
    match calculate_converted_quantity input_quantity input_unit r.unit db.units with
    | none => ((false, .conversionNotFound), db)
    | some adj =>
      let new_stock := if is_addition then r.quantity + adj else r.quantity - adj
      match update_row_by_id db.ingredients r.id ⟨some new_stock, none⟩ io.updateOk with
      | (true, ings) => ((true, .ok), ⟨ings, db.units, db.config, db.history⟩)
      | (false, _) => ((false, .persistenceError), db)

/-- `atomic_combined_update(name, stock_qty_input, stock_unit_input,
price_cost_input)` (lines 285-342).  The function finds the record and
converts the stock twice (lines 302 and 308), checks the converted
quantity is nonzero, computes the new unit cost — and then builds its
`updates` dict from the module constant `STOCK_QUANTITY_KEY` (line 316),
which is defined nowhere in the repository: the dict construction raises
`NameError` before `queries.update_row_by_id` is ever called, so no
repository write and no history logging happen on any input. -/
def atomic_combined_update (name : String) (stock_qty_input : ℚ)
    (stock_unit_input : String) (price_cost_input : ℚ) (db : Db) (io : IoFate) :
    (Bool × OpStatus) × Db :=
  match findIng name db.ingredients with
  | none => ((false, .notFound), db)
  | some r =>
    match calculate_converted_quantity stock_qty_input stock_unit_input r.unit db.units with
    | none => ((false, .conversionNotFound), db)
    | some _new_stock_qty =>
      match calculate_converted_quantity stock_qty_input stock_unit_input r.unit db.units with
      | none => ((false, .conversionNotFound), db)
      | some k =>
        if k = 0 then ((false, .conversionNotFound), db)
        else ((false, .crashNameError), db)

/-- The body of `atomic_combined_update` with its two undefined names
repaired as plainly intended (`STOCK_QUANTITY_KEY` ↦ the `Quantity`
column; `log_stock_history` ↦ the stock-history append, whose sheet is
not modelled): one `update_row_by_id` call — properly awaited at line
325 — carrying both the converted quantity and
`price / converted_quantity`, then the price-history log (repaired,
like the names, to actually append; see `appendPriceLogRepaired`). -/
def atomic_combined_update_intended (name : String) (stock_qty_input : ℚ)
    (stock_unit_input : String) (price_cost_input : ℚ) (db : Db) (io : IoFate) :
    (Bool × OpStatus) × Db :=
  match findIng name db.ingredients with
  | none => ((false, .notFound), db)
  | some r =>
    match calculate_converted_quantity stock_qty_input stock_unit_input r.unit db.units with
    | none => ((false, .conversionNotFound), db)
    | some new_stock_qty =>
      match calculate_converted_quantity stock_qty_input stock_unit_input r.unit db.units with
      | none => ((false, .conversionNotFound), db)
      | some k =>
        if k = 0 then ((false, .conversionNotFound), db)
        else
          let new_cost := price_cost_input / k
          match update_row_by_id db.ingredients r.id ⟨some new_stock_qty, some new_cost⟩ io.updateOk with
          | (true, ings) =>
            ((true, .ok), appendPriceLogRepaired ⟨ings, db.units, db.config, db.history⟩ io.histOk
              ⟨r.id, r.cost_per_unit, new_cost⟩)
          | (false, _) => ((false, .persistenceError), db)

/-- The eleven regex matchers of `dispatch_nlp_action`
(`ingredients_handler.py` lines 597-632), in source order, abstracted as
text predicates (the regular expressions themselves are opaque to the
dispatch logic the claim is about). -/
structure NlpMatchers where
  buy : String → Bool
  adjustment : String → Bool
  price_update : String → Bool
  quantity_check : String → Bool
  set_stock : String → Bool
  status_check : String → Bool
  stock_usage : String → Bool
  stock_addition : String → Bool
  combined_update : String → Bool
  inventory_report : String → Bool
  stop : String → Bool

/-- The reply produced by the handler attached to each rule (each
`_handle_*` call on the regex captures of the matched text). -/
structure NlpHandlers where
  buy : String → String
  adjustment : String → String
  price_update : String → String
  quantity_check : String → String
  set_stock : String → String
  status_check : String → String
  stock_usage : String → String
  stock_addition : String → String
  combined_update : String → String
  inventory_report : String → String
  stop : String → String

/-- The fixed fallback/help reply (`INGREDIENTS_MANAGER_FALLBACK_MESSAGE`,
lines 172-200; text abridged — only its identity matters). -/
def INGREDIENTS_MANAGER_FALLBACK_MESSAGE : String :=
  "Unrecognized Action. Please try one of the supported command formats."

/-- `dispatch_nlp_action` (lines 584-650): strip the incoming text, try
the eleven patterns in their fixed source order, dispatch the first that
matches, and fall back to the fixed help message when none does. -/
def dispatch_nlp_action (m : NlpMatchers) (h : NlpHandlers) (raw : String) : String :=
  let text : String := ⟨pyStrip raw.data⟩
  if m.buy text then h.buy text
  else if m.adjustment text then h.adjustment text
  else if m.price_update text then h.price_update text
  else if m.quantity_check text then h.quantity_check text
  else if m.set_stock text then h.set_stock text
  else if m.status_check text then h.status_check text
  else if m.stock_usage text then h.stock_usage text
  else if m.stock_addition text then h.stock_addition text
  else if m.combined_update text then h.combined_update text
  else if m.inventory_report text then h.inventory_report text
  else if m.stop text then h.stop text
  else INGREDIENTS_MANAGER_FALLBACK_MESSAGE

/-- The dispatcher's rule table in priority order: pattern plus handler,
first match wins. -/
def nlpRules (m : NlpMatchers) (h : NlpHandlers) :
    List ((String → Bool) × (String → String)) :=
  [(m.buy, h.buy), (m.adjustment, h.adjustment), (m.price_update, h.price_update),
   (m.quantity_check, h.quantity_check), (m.set_stock, h.set_stock),
   (m.status_check, h.status_check), (m.stock_usage, h.stock_usage),
   (m.stock_addition, h.stock_addition), (m.combined_update, h.combined_update),
   (m.inventory_report, h.inventory_report), (m.stop, h.stop)]

/-- First-match-wins evaluation of an ordered rule list, with the fixed
fallback reply when no rule matches. -/
def firstMatchReply : List ((String → Bool) × (String → String)) → String → String
  | [], _ => INGREDIENTS_MANAGER_FALLBACK_MESSAGE
  | p :: rest, text => if p.1 text then p.2 text else firstMatchReply rest text

/-- One purchase request (`Bought q unit name for total_cost`) together
with the fate of its backend writes. -/
structure PurchaseCmd where
  name : String
  quantity : ℚ
  unit : String
  total_cost : ℚ
  io : IoFate

/-- Run a sequence of purchases through the repaired
`process_ingredient_purchase_intended` (the faithful
`process_ingredient_purchase` never changes the state at all, so
sequences of it are trivial — see C2's theorem). -/
def runPurchasesRepaired : List PurchaseCmd → Db → Db
  | [], db => db
  | c :: cs, db =>
    runPurchasesRepaired cs
      (process_ingredient_purchase_intended c.name c.quantity c.unit c.total_cost db c.io).2

/-- Row-wise relation between two ingredient tables: same rows in the
same order (`ID`, `Name`, `Unit` preserved) with the stored
`Cost Per Unit` nowhere decreased. -/
def CostMono (l l' : List Ingredient) : Prop :=
  List.Forall₂ (fun r r' => r'.id = r.id ∧ r'.name = r.name ∧ r'.unit = r.unit ∧
    r.cost_per_unit ≤ r'.cost_per_unit) l l'

/-! ## Resolver lemmas -/

/-- The direct scan finds nothing when every matching rule has an
unparseable rate cell. -/
theorem findDirect_eq_none (f t : String) (l : List ConvRule)
    (h : ∀ ru ∈ l, pynorm ru.from_unit = f → pynorm ru.to_unit = t → ru.rate = none) :
    findDirect f t l = none := by
  induction l with
  | nil => rfl
  | cons r rs ih =>
    have hrest : ∀ ru ∈ rs, pynorm ru.from_unit = f → pynorm ru.to_unit = t → ru.rate = none :=
      fun ru hm => h ru (List.mem_cons_of_mem _ hm)
    simp only [findDirect]
    split
    · rename_i hc
      rw [h r (List.mem_cons_self r rs) hc.1 hc.2]
      exact ih hrest
    · exact ih hrest

/-- The direct scan returns the rate of the first matching rule whose
rate cell parses. -/
theorem findDirect_first (f t : String) (l1 : List ConvRule) (ru : ConvRule)
    (l2 : List ConvRule) (x : ℚ)
    (hm1 : pynorm ru.from_unit = f) (hm2 : pynorm ru.to_unit = t) (hr : ru.rate = some x)
    (hl1 : ∀ ru' ∈ l1, pynorm ru'.from_unit = f → pynorm ru'.to_unit = t → ru'.rate = none) :
    findDirect f t (l1 ++ ru :: l2) = some x := by
  induction l1 with
  | nil =>
    simp only [List.nil_append, findDirect]
    rw [if_pos ⟨hm1, hm2⟩, hr]
  | cons a as ih =>
    have hrest : ∀ ru' ∈ as, pynorm ru'.from_unit = f → pynorm ru'.to_unit = t →
        ru'.rate = none := fun ru' hm => hl1 ru' (List.mem_cons_of_mem _ hm)
    simp only [List.cons_append, findDirect]
    split
    · rename_i hc
      rw [hl1 a (List.mem_cons_self a as) hc.1 hc.2]
      exact ih hrest
    · exact ih hrest

/-- The reverse scan finds nothing when every rule matching in the
opposite direction has an unparseable or zero rate. -/
theorem findReverse_eq_none (f t : String) (l : List ConvRule)
    (h : ∀ ru ∈ l, pynorm ru.from_unit = t → pynorm ru.to_unit = f →
      ru.rate = none ∨ ru.rate = some 0) :
    findReverse f t l = none := by
  induction l with
  | nil => rfl
  | cons r rs ih =>
    have hrest : ∀ ru ∈ rs, pynorm ru.from_unit = t → pynorm ru.to_unit = f →
        ru.rate = none ∨ ru.rate = some 0 := fun ru hm => h ru (List.mem_cons_of_mem _ hm)
    simp only [findReverse]
    split
    · rename_i hc
      rcases h r (List.mem_cons_self r rs) hc.1 hc.2 with h0 | h0 <;> rw [h0]
      · exact ih hrest
      · show (if (0 : ℚ) = 0 then findReverse f t rs else some (1 / 0)) = none
        rw [if_pos rfl]
        exact ih hrest
    · exact ih hrest

/-- The reverse scan inverts the rate of the first opposite-direction
rule whose rate parses and is nonzero. -/
theorem findReverse_first (f t : String) (l1 : List ConvRule) (ru : ConvRule)
    (l2 : List ConvRule) (x : ℚ)
    (hm1 : pynorm ru.from_unit = t) (hm2 : pynorm ru.to_unit = f) (hr : ru.rate = some x)
    (hx : x ≠ 0)
    (hl1 : ∀ ru' ∈ l1, pynorm ru'.from_unit = t → pynorm ru'.to_unit = f →
      ru'.rate = none ∨ ru'.rate = some 0) :
    findReverse f t (l1 ++ ru :: l2) = some (1 / x) := by
  induction l1 with
  | nil =>
    simp only [List.nil_append, findReverse]
    rw [if_pos ⟨hm1, hm2⟩, hr]
    show (if x = 0 then findReverse f t l2 else some (1 / x)) = some (1 / x)
    rw [if_neg hx]
  | cons a as ih =>
    have hrest : ∀ ru' ∈ as, pynorm ru'.from_unit = t → pynorm ru'.to_unit = f →
        ru'.rate = none ∨ ru'.rate = some 0 := fun ru' hm => hl1 ru' (List.mem_cons_of_mem _ hm)
    simp only [List.cons_append, findReverse]
    split
    · rename_i hc
      rcases hl1 a (List.mem_cons_self a as) hc.1 hc.2 with h0 | h0 <;> rw [h0]
      · exact ih hrest
      · show (if (0 : ℚ) = 0 then findReverse f t (as ++ ru :: l2) else some (1 / 0)) =
          some (1 / x)
        rw [if_pos rfl]
        exact ih hrest
    · exact ih hrest

/-! ## C6 -/

/-- C6: for every pair of unit tokens with the same normalization (in
particular `resolve(u, u)`), `get_conversion_rate` returns `1.0` for
every conversion table, i.e. without needing any table entry. -/
theorem resolve_identity_rate_one (u v : String) (table : List ConvRule)
    (h : pynorm u = pynorm v) : get_conversion_rate u v table = some 1 := by
  unfold get_conversion_rate
  simp [h]

/-- Witness for C6 at a concrete input: the token `" KG "` converts to
`"kg"` at rate 1 even though the table is empty. -/
theorem resolve_identity_rate_one_witness :
    get_conversion_rate " KG " "kg" [] = some 1 :=
  resolve_identity_rate_one " KG " "kg" [] (by decide)

/-! ## C10 -/

/-- C10: the full direct scan runs before any reverse record is
consulted, so whenever the table holds a usable direct `a → b` record
(first such rate `x`), `resolve(a, b)` returns `x` no matter what
reverse `b → a` records the table also stores — even numerically
inconsistent ones. -/
theorem resolve_direct_precedence (a b : String) (table : List ConvRule) (x : ℚ)
    (hab : pynorm a ≠ pynorm b)
    (hfirst : ∃ l1 ru l2, table = l1 ++ ru :: l2 ∧ pynorm ru.from_unit = pynorm a ∧
      pynorm ru.to_unit = pynorm b ∧ ru.rate = some x ∧
      ∀ ru' ∈ l1, pynorm ru'.from_unit = pynorm a → pynorm ru'.to_unit = pynorm b →
        ru'.rate = none) :
    get_conversion_rate a b table = some x := by
  obtain ⟨l1, ru, l2, rfl, h1, h2, h3, h4⟩ := hfirst
  unfold get_conversion_rate
  rw [if_neg hab, findDirect_first (pynorm a) (pynorm b) l1 ru l2 x h1 h2 h3 h4]

/-- Witness for C10: the table stores the reverse record `g → kg` (rate 3,
listed first) *and* the direct record `kg → g` (rate 2); resolution of
`(kg, g)` returns the stored direct rate 2, not the inverse `1/3` of the
reverse record scanned first. -/
theorem resolve_direct_precedence_witness :
    get_conversion_rate "kg" "g" [⟨"g", "kg", some 3⟩, ⟨"kg", "g", some 2⟩] = some 2 ∧
    (2 : ℚ) ≠ 1 / 3 := by
  constructor
  · exact resolve_direct_precedence "kg" "g" _ 2 (by decide)
      ⟨[⟨"g", "kg", some 3⟩], ⟨"kg", "g", some 2⟩, [], rfl, by decide, by decide, rfl,
        by
          intro ru' hm hf _
          rw [List.mem_singleton] at hm
          subst hm
          exact absurd hf (by decide)⟩
  · norm_num

/-! ## C5 -/

/-- C5 as frozen is false on the code: this table stores the direct
record `kg → g` with nonzero rate 2, yet `resolve("g", "kg")` is not
`1/2` — the scan finds the (numerically inconsistent) stored direct
record `g → kg` first and returns its rate 3. -/
theorem resolve_inverse_counterexample :
    (⟨"kg", "g", some 2⟩ : ConvRule) ∈
      ([⟨"kg", "g", some 2⟩, ⟨"g", "kg", some 3⟩] : List ConvRule) ∧
    (2 : ℚ) ≠ 0 ∧
    get_conversion_rate "g" "kg" [⟨"kg", "g", some 2⟩, ⟨"g", "kg", some 3⟩] = some 3 ∧
    (3 : ℚ) ≠ 1 / 2 := by
  refine ⟨List.mem_cons_self _ _, by norm_num, ?_, by norm_num⟩
  have h3 : ("g" : String) ≠ "kg" := by decide
  have h1 : pynorm "g" = "g" := by decide
  have h2 : pynorm "kg" = "kg" := by decide
  simp [get_conversion_rate, findDirect, findReverse, h1, h2, h3]

/-- C5 amended: inverse consistency holds when the stored `a → b` record
is the one the reverse scan settles on, i.e. when no direct `b → a`
record with a parseable rate exists and `x` is the first parseable
nonzero `a → b` rate; and when the only available reverse-direction
records carry rate zero (or unparseable rates), resolution returns
not-found instead of crashing on the division. -/
theorem resolve_inverse_of_only_forward (a b : String) (table : List ConvRule) :
    (∀ x : ℚ, x ≠ 0 →
      pynorm a ≠ pynorm b →
      (∀ ru ∈ table, pynorm ru.from_unit = pynorm b → pynorm ru.to_unit = pynorm a →
        ru.rate = none) →
      (∃ l1 ru l2, table = l1 ++ ru :: l2 ∧ pynorm ru.from_unit = pynorm a ∧
        pynorm ru.to_unit = pynorm b ∧ ru.rate = some x ∧
        ∀ ru' ∈ l1, pynorm ru'.from_unit = pynorm a → pynorm ru'.to_unit = pynorm b →
          ru'.rate = none ∨ ru'.rate = some 0) →
      get_conversion_rate b a table = some (1 / x)) ∧
    (pynorm a ≠ pynorm b →
      (∀ ru ∈ table, pynorm ru.from_unit = pynorm b → pynorm ru.to_unit = pynorm a →
        ru.rate = none) →
      (∀ ru ∈ table, pynorm ru.from_unit = pynorm a → pynorm ru.to_unit = pynorm b →
        ru.rate = none ∨ ru.rate = some 0) →
      get_conversion_rate b a table = none) := by
  constructor
  · intro x hx hab hnodirect hfwd
    obtain ⟨l1, ru, l2, rfl, h1, h2, h3, h4⟩ := hfwd
    unfold get_conversion_rate
    rw [if_neg (fun h => hab h.symm)]
    rw [findDirect_eq_none (pynorm b) (pynorm a) _ hnodirect]
    exact findReverse_first (pynorm b) (pynorm a) l1 ru l2 x h1 h2 h3 hx h4
  · intro hab hnodirect hbad
    unfold get_conversion_rate
    rw [if_neg (fun h => hab h.symm)]
    rw [findDirect_eq_none (pynorm b) (pynorm a) table hnodirect]
    exact findReverse_eq_none (pynorm b) (pynorm a) table hbad

/-- Witness for C5 (amended): with only the forward record
`kg → g = 1000`, resolving `(g, kg)` yields `1/1000`; with only a
zero-rate forward record, resolution reports not-found. -/
theorem resolve_inverse_of_only_forward_witness :
    get_conversion_rate "g" "kg" [⟨"kg", "g", some 1000⟩] = some (1 / 1000) ∧
    get_conversion_rate "g" "kg" [⟨"kg", "g", some 0⟩] = none := by
  constructor
  · exact (resolve_inverse_of_only_forward "kg" "g" [⟨"kg", "g", some 1000⟩]).1 1000
      (by norm_num) (by decide)
      (by
        intro ru hm hf _
        rw [List.mem_singleton] at hm
        subst hm
        exact absurd hf (by decide))
      ⟨[], ⟨"kg", "g", some 1000⟩, [], rfl, by decide, by decide, rfl,
        fun ru' hm => absurd hm (List.not_mem_nil _)⟩
  · exact (resolve_inverse_of_only_forward "kg" "g" [⟨"kg", "g", some 0⟩]).2 (by decide)
      (by
        intro ru hm hf _
        rw [List.mem_singleton] at hm
        subst hm
        exact absurd hf (by decide))
      (by
        intro ru hm _ _
        rw [List.mem_singleton] at hm
        subst hm
        exact Or.inr rfl)

/-! ## C8: identifier allocator -/

theorem listStartsWith_append (p s : List Char) : listStartsWith (p ++ s) p = true := by
  induction p with
  | nil => cases s <;> rfl
  | cons c cs ih => simp [listStartsWith, ih]

/-- A string of digits never starts with a pattern containing a
non-digit character. -/
theorem listStartsWith_false_of_digits (p : List Char)
    (hp : p.all (fun c => c.isDigit) = false) :
    ∀ s : List Char, s.all (fun c => c.isDigit) = true → listStartsWith s p = false := by
  induction p with
  | nil => simp at hp
  | cons c cs ih =>
    intro s hs
    cases s with
    | nil => rfl
    | cons a as =>
      simp only [List.all_cons, Bool.and_eq_true] at hs
      simp only [listStartsWith]
      by_cases hac : a = c
      · subst hac
        simp only [List.all_cons] at hp
        rw [hs.1] at hp
        simp only [Bool.true_and] at hp
        simp [ih hp as hs.2]
      · simp [hac]

/-- Scanning an all-digit string for a pattern containing a non-digit
deletes nothing, whatever the fuel. -/
theorem replaceDelAux_all_digits (p : List Char)
    (hp : p.all (fun c => c.isDigit) = false) :
    ∀ (fuel : Nat) (s : List Char), s.all (fun c => c.isDigit) = true →
      replaceDelAux p fuel s = s := by
  intro fuel
  induction fuel with
  | zero => intro s _; rfl
  | succ n ih =>
    intro s hs
    cases s with
    | nil => rfl
    | cons c cs =>
      simp only [List.all_cons, Bool.and_eq_true] at hs
      simp only [replaceDelAux]
      rw [listStartsWith_false_of_digits p hp (c :: cs) (by simp [List.all_cons, hs.1, hs.2])]
      simp only [Bool.false_eq_true, if_false]
      rw [ih cs hs.2]

/-- `(prefix + digits).replace(prefix, '') == digits` whenever the prefix
contains a non-digit character (as `ING` does): the scan deletes exactly
the leading prefix occurrence and nothing inside the digit suffix. -/
theorem pyReplaceDel_prefix_digits (p s : List Char)
    (hp : p.all (fun c => c.isDigit) = false) (hs : s.all (fun c => c.isDigit) = true) :
    pyReplaceDel (p ++ s) p = s := by
  cases p with
  | nil => simp at hp
  | cons c cs =>
    unfold pyReplaceDel
    simp only [List.isEmpty_cons, Bool.false_eq_true, if_false]
    simp only [List.cons_append, List.length_cons, List.length_append]
    simp only [replaceDelAux]
    rw [show listStartsWith (c :: (cs ++ s)) (c :: cs) = true from listStartsWith_append (c :: cs) s]
    simp only [if_true]
    rw [show (c :: (cs ++ s)).drop (c :: cs).length = s from List.drop_left (c :: cs) s]
    exact replaceDelAux_all_digits (c :: cs) hp _ s hs

theorem findConfigRow_none (key : String) (l : List (String × String))
    (h : ∀ e ∈ l, pynorm e.1 ≠ pynorm key) : findConfigRow key l = none := by
  induction l with
  | nil => rfl
  | cons e es ih =>
    simp only [findConfigRow]
    rw [if_neg (h e (List.mem_cons_self e es))]
    exact ih fun e' he' => h e' (List.mem_cons_of_mem _ he')

/-- The case-insensitive read finds the first row whose normalized key
matches. -/
theorem findConfigRow_split (key : String) (l1 : List (String × String))
    (kv : String × String) (l2 : List (String × String))
    (hkv : pynorm kv.1 = pynorm key)
    (hl1 : ∀ e ∈ l1, pynorm e.1 ≠ pynorm key) :
    findConfigRow key (l1 ++ kv :: l2) = some kv := by
  induction l1 with
  | nil =>
    simp only [List.nil_append, findConfigRow]
    rw [if_pos hkv]
  | cons e es ih =>
    simp only [List.cons_append, findConfigRow]
    rw [if_neg (hl1 e (List.mem_cons_self e es))]
    exact ih fun e' he' => hl1 e' (List.mem_cons_of_mem _ he')

/-- The exact-match write rewrites the `Value` cell of the first row
whose key cell is exactly `key`. -/
theorem updateConfigFirstExact_split (key newval : String)
    (l1 : List (String × String)) (kv : String × String) (l2 : List (String × String))
    (hkv : kv.1 = key) (hl1 : ∀ e ∈ l1, e.1 ≠ key) :
    updateConfigFirstExact key newval (l1 ++ kv :: l2) =
      some (l1 ++ (kv.1, newval) :: l2) := by
  induction l1 with
  | nil =>
    simp only [List.nil_append, updateConfigFirstExact]
    rw [if_pos hkv]
  | cons e es ih =>
    simp only [List.cons_append, updateConfigFirstExact]
    rw [if_neg (hl1 e (List.mem_cons_self e es))]
    simp only [List.append_eq]
    rw [ih (fun e' he' => hl1 e' (List.mem_cons_of_mem _ he'))]
    rfl

/-- C8: (i) when the counter row for `key` stores `prefix ++ digits`
(first matching row both case-insensitively and exactly; the prefix, as
`ING`, contains a non-digit) and the backend write succeeds, allocation
writes back the incremented value zero-padded to the width of the
current digit block and returns the previous value as the allocated id;
(ii) when no counter row matches the key, allocation fails with no
identifier and no write; (iii) when the backend write of the next value
fails, allocation fails with no identifier and the counter row is left
unchanged. -/
theorem get_next_unique_id_spec :
    (∀ (l1 l2 : List (String × String)) (key pre ds : String) (m : Nat),
      pre.data.all (fun c => c.isDigit) = false →
      parseDigits ds.data = some m →
      (∀ e ∈ l1, pynorm e.1 ≠ pynorm key) →
      get_next_unique_id (l1 ++ (key, pre ++ ds) :: l2) key pre true =
        (some (pre ++ ds),
         l1 ++ (key, pre ++ zfillS ds.length (Nat.repr (m + 1))) :: l2)) ∧
    (∀ (config : List (String × String)) (key pre : String) (writeOk : Bool),
      (∀ e ∈ config, pynorm e.1 ≠ pynorm key) →
      get_next_unique_id config key pre writeOk = (none, config)) ∧
    (∀ (l1 l2 : List (String × String)) (key pre ds : String) (m : Nat),
      pre.data.all (fun c => c.isDigit) = false →
      parseDigits ds.data = some m →
      (∀ e ∈ l1, pynorm e.1 ≠ pynorm key) →
      get_next_unique_id (l1 ++ (key, pre ++ ds) :: l2) key pre false =
        (none, l1 ++ (key, pre ++ ds) :: l2)) := by
  have hmain : ∀ (l1 l2 : List (String × String)) (key pre ds : String) (m : Nat)
      (writeOk : Bool),
      pre.data.all (fun c => c.isDigit) = false →
      parseDigits ds.data = some m →
      (∀ e ∈ l1, pynorm e.1 ≠ pynorm key) →
      get_next_unique_id (l1 ++ (key, pre ++ ds) :: l2) key pre writeOk =
        (if writeOk then
          (some (pre ++ ds),
           l1 ++ (key, pre ++ zfillS ds.length (Nat.repr (m + 1))) :: l2)
         else (none, l1 ++ (key, pre ++ ds) :: l2)) := by
    intro l1 l2 key pre ds m writeOk hpre hparse hl1
    have hcond : ds.data ≠ [] ∧ (ds.data.all (fun c => c.isDigit)) = true := by
      by_contra hc
      unfold parseDigits at hparse
      rw [if_neg (by simpa using hc)] at hparse
      cases hparse
    have hdata : (pre ++ ds).data = pre.data ++ ds.data := String.data_append pre ds
    have hvne : pre ++ ds ≠ "" := by
      intro h
      apply hcond.1
      have h2 := congrArg String.data h
      rw [hdata] at h2
      exact (List.append_eq_nil.mp h2).2
    have hpad : (pre ++ ds).length - pre.length = ds.length := by
      have h1 : (pre ++ ds).length = pre.length + ds.length := by
        show (pre ++ ds).data.length = pre.data.length + ds.data.length
        rw [hdata, List.length_append]
      omega
    unfold get_next_unique_id read_config_value
    rw [findConfigRow_split key l1 (key, pre ++ ds) l2 rfl hl1]
    simp only [Option.map_some']
    rw [if_neg hvne, hdata, pyReplaceDel_prefix_digits pre.data ds.data hpre hcond.2, hparse]
    simp only [hpad]
    unfold update_config_value
    cases writeOk with
    | true =>
      rw [if_pos rfl]
      rw [updateConfigFirstExact_split key _ l1 (key, pre ++ ds) l2 rfl
        (fun e he h => hl1 e he (by rw [h]))]
      rfl
    | false =>
      rfl
  refine ⟨fun l1 l2 key pre ds m hpre hparse hl1 =>
      (hmain l1 l2 key pre ds m true hpre hparse hl1).trans (if_pos rfl),
    ?_,
    fun l1 l2 key pre ds m hpre hparse hl1 =>
      (hmain l1 l2 key pre ds m false hpre hparse hl1).trans (if_neg (by simp))⟩
  intro config key pre writeOk habs
  unfold get_next_unique_id read_config_value
  rw [findConfigRow_none key config habs]
  rfl

/-- Witness for C8: counter `NEXT_ING_ID = ING001` allocates `ING001`
and stores back `ING002` (padding width preserved); the same counter
with a failing write allocates nothing and stays unchanged; a missing
counter row allocates nothing. -/
theorem get_next_unique_id_spec_witness :
    get_next_unique_id [("NEXT_ING_ID", "ING001")] "NEXT_ING_ID" "ING" true =
      (some "ING001", [("NEXT_ING_ID", "ING002")]) ∧
    get_next_unique_id [("NEXT_ING_ID", "ING001")] "NEXT_ING_ID" "ING" false =
      (none, [("NEXT_ING_ID", "ING001")]) ∧
    get_next_unique_id [] "NEXT_ING_ID" "ING" true = (none, []) := by
  have e1 : ("ING" ++ "001" : String) = "ING001" := by decide
  have e2 : ("ING" ++ zfillS ("001" : String).length (Nat.repr (1 + 1)) : String) = "ING002" := by
    decide
  refine ⟨?_, ?_, ?_⟩
  · have h := get_next_unique_id_spec.1 [] [] "NEXT_ING_ID" "ING" "001" 1 (by decide)
      (by decide) (fun e he => absurd he (List.not_mem_nil _))
    rw [e1, e2] at h
    simpa using h
  · have h := get_next_unique_id_spec.2.2 [] [] "NEXT_ING_ID" "ING" "001" 1 (by decide)
      (by decide) (fun e he => absurd he (List.not_mem_nil _))
    rw [e1] at h
    simpa using h
  · exact get_next_unique_id_spec.2.1 [] "NEXT_ING_ID" "ING" true
      (fun e he => absurd he (List.not_mem_nil _))

/-! ## List lemmas for the ledger table -/

theorem costMono_refl (l : List Ingredient) : CostMono l l := by
  induction l with
  | nil => exact List.Forall₂.nil
  | cons r rs ih => exact List.Forall₂.cons ⟨rfl, rfl, rfl, le_refl _⟩ ih

theorem costMono_trans {l1 l2 l3 : List Ingredient}
    (h1 : CostMono l1 l2) (h2 : CostMono l2 l3) : CostMono l1 l3 := by
  induction h1 generalizing l3 with
  | nil => cases h2; exact List.Forall₂.nil
  | cons ha _ ih =>
    cases h2 with
    | cons hb hrest2 =>
      exact List.Forall₂.cons
        ⟨hb.1.trans ha.1, hb.2.1.trans ha.2.1, hb.2.2.1.trans ha.2.2.1,
          le_trans ha.2.2.2 hb.2.2.2⟩ (ih hrest2)

theorem ids_eq_of_costMono {l l' : List Ingredient} (h : CostMono l l') :
    l'.map Ingredient.id = l.map Ingredient.id := by
  induction h with
  | nil => rfl
  | cons ha _ ih => simp [ha.1, ih]

theorem findIng_isSome_of_costMono {l l' : List Ingredient} (h : CostMono l l')
    (name : String) : (findIng name l).isSome → (findIng name l').isSome := by
  induction h with
  | nil => exact id
  | @cons a b as bs ha _ ih =>
    simp only [findIng, ha.2.1]
    by_cases hc : pynorm a.name = pynorm name
    · simp [hc]
    · rw [if_neg hc, if_neg hc]
      exact ih

theorem findIng_mem {name : String} {l : List Ingredient} {r : Ingredient}
    (h : findIng name l = some r) : r ∈ l := by
  induction l with
  | nil => cases h
  | cons a as ih =>
    simp only [findIng] at h
    by_cases hc : pynorm a.name = pynorm name
    · rw [if_pos hc] at h
      injection h with h
      rw [← h]
      exact List.mem_cons_self _ _
    · rw [if_neg hc] at h
      exact List.mem_cons_of_mem _ (ih h)

theorem findRowById_isSome_of_mem {l : List Ingredient} {rec : Ingredient} (h : rec ∈ l) :
    (findRowById rec.id l).isSome := by
  induction l with
  | nil => cases h
  | cons a as ih =>
    simp only [findRowById]
    by_cases hc : a.id = rec.id
    · simp [hc]
    · rw [if_neg hc]
      rcases List.mem_cons.mp h with rfl | hmem
      · exact absurd rfl hc
      · exact ih hmem

theorem mem_eq_of_nodup_ids {l : List Ingredient} (hnd : (l.map Ingredient.id).Nodup)
    {r r' : Ingredient} (hr : r ∈ l) (hr' : r' ∈ l) (hid : r.id = r'.id) : r = r' := by
  induction l with
  | nil => cases hr
  | cons a as ih =>
    rw [List.map_cons, List.nodup_cons] at hnd
    rcases List.mem_cons.mp hr with rfl | hm
    · rcases List.mem_cons.mp hr' with rfl | hm'
      · rfl
      · exact absurd (by rw [hid]; exact List.mem_map_of_mem Ingredient.id hm') hnd.1
    · rcases List.mem_cons.mp hr' with rfl | hm'
      · exact absurd (by rw [← hid]; exact List.mem_map_of_mem Ingredient.id hm) hnd.1
      · exact ih hnd.2 hm hm'

theorem costMono_applyUpdFirst (rid : String) (u : RowUpdates) (l : List Ingredient)
    (h : ∀ r ∈ l, r.id = rid → r.cost_per_unit ≤ u.cost.getD r.cost_per_unit) :
    CostMono l (applyUpdFirst rid u l) := by
  induction l with
  | nil => exact List.Forall₂.nil
  | cons a as ih =>
    simp only [applyUpdFirst]
    by_cases hc : a.id = rid
    · rw [if_pos hc]
      exact List.Forall₂.cons ⟨rfl, rfl, rfl, h a (List.mem_cons_self a as) hc⟩
        (costMono_refl as)
    · rw [if_neg hc]
      exact List.Forall₂.cons ⟨rfl, rfl, rfl, le_refl _⟩
        (ih fun r hr => h r (List.mem_cons_of_mem _ hr))

/-- Updating the row found by name leaves it findable under the same
name, with the updates applied (unique ids). -/
theorem findIng_applyUpdFirst {name : String} {l : List Ingredient} {rec : Ingredient}
    (hnd : (l.map Ingredient.id).Nodup) (hfind : findIng name l = some rec)
    (u : RowUpdates) :
    findIng name (applyUpdFirst rec.id u l) = some (applyRow u rec) := by
  induction l with
  | nil => cases hfind
  | cons a as ih =>
    rw [List.map_cons, List.nodup_cons] at hnd
    simp only [findIng] at hfind
    by_cases hc : pynorm a.name = pynorm name
    · rw [if_pos hc] at hfind
      injection hfind with h
      subst h
      simp only [applyUpdFirst, if_pos rfl, findIng, applyRow]
      rw [if_pos hc]
    · rw [if_neg hc] at hfind
      have hmem := findIng_mem hfind
      have hne : a.id ≠ rec.id := by
        intro h
        exact hnd.1 (by rw [h]; exact List.mem_map_of_mem Ingredient.id hmem)
      simp only [applyUpdFirst]
      rw [if_neg hne]
      simp only [findIng]
      rw [if_neg hc]
      exact ih hnd.2 hfind

/-- `appendPriceLogRepaired` never touches the `Ingredients` table. -/
theorem appendPriceLogRepaired_ingredients (db : Db) (ok : Bool) (e : PriceLog) :
    (appendPriceLogRepaired db ok e).ingredients = db.ingredients := by
  cases ok <;> rfl

/-- A successful `update_row_by_id` on a member row rewrites exactly the
first row with its id. -/
theorem update_row_ok {l : List Ingredient} {rec : Ingredient} (hmem : rec ∈ l)
    (u : RowUpdates) :
    update_row_by_id l rec.id u true = (true, applyUpdFirst rec.id u l) := by
  unfold update_row_by_id
  rw [if_pos rfl]
  rcases hfr : findRowById rec.id l with _ | r2
  · have hs := findRowById_isSome_of_mem hmem
    rw [hfr] at hs
    cases hs
  · rfl

/-- Whatever the write fate, `update_row_by_id` keyed at a member row
with a non-decreasing cost update leaves the table `CostMono`. -/
theorem costMono_update_row (l : List Ingredient) (rec : Ingredient) (u : RowUpdates)
    (ok : Bool) (hnd : (l.map Ingredient.id).Nodup) (hmem : rec ∈ l)
    (hc : rec.cost_per_unit ≤ u.cost.getD rec.cost_per_unit) :
    CostMono l (update_row_by_id l rec.id u ok).2 := by
  unfold update_row_by_id
  split
  · rcases hfr : findRowById rec.id l with _ | r2
    · exact costMono_refl l
    · exact costMono_applyUpdFirst rec.id u l fun rr hrr hid => by
        rw [mem_eq_of_nodup_ids hnd hrr hmem hid]
        exact hc
  · exact costMono_refl l

/-- One repaired purchase of a known ingredient never decreases any
stored `Cost Per Unit` (and preserves every row's identity cells). -/
theorem purchase_step_costMono (name : String) (q : ℚ) (unit : String) (tc : ℚ)
    (db : Db) (io : IoFate)
    (hnd : (db.ingredients.map Ingredient.id).Nodup)
    (hknown : (findIng name db.ingredients).isSome) :
    CostMono db.ingredients
      ((process_ingredient_purchase_intended name q unit tc db io).2.ingredients) := by
  simp only [process_ingredient_purchase_intended]
  by_cases hq : q = 0
  · rw [if_pos hq]
    exact costMono_refl _
  rw [if_neg hq]
  rcases hfe : findIng name db.ingredients with _ | r
  · rw [hfe] at hknown
    cases hknown
  have hmem : r ∈ db.ingredients := findIng_mem hfe
  simp only [hfe]
  rcases hcv : purchaseConvertedQty q unit r db.units with _ | k
  · exact costMono_refl _
  simp only []
  by_cases hk : k = 0
  · rw [if_pos hk]
    exact costMono_refl _
  rw [if_neg hk]
  by_cases hgt : tc / k > r.cost_per_unit
  · rw [if_pos hgt]
    split
    · rename_i ings heq
      rw [appendPriceLogRepaired_ingredients] at heq
      have h := costMono_update_row db.ingredients r ⟨some (r.quantity + k), some (tc / k)⟩
        io.updateOk hnd hmem (le_of_lt hgt)
      rw [heq] at h
      exact h
    · rename_i b heq
      rw [appendPriceLogRepaired_ingredients]
      exact costMono_refl _
  · rw [if_neg hgt]
    split
    · rename_i ings heq
      have h := costMono_update_row db.ingredients r ⟨some (r.quantity + k), none⟩
        io.updateOk hnd hmem (le_refl _)
      rw [heq] at h
      exact h
    · exact costMono_refl _

/-- Support for C2, about the *repaired* purchase path (the behavior the
spec describes): (i) a repaired purchase of a known ingredient adds the
converted quantity to the stock and rewrites the stored cost to the
batch unit cost exactly when that batch cost strictly exceeds the stored
one, keeping it otherwise; (ii) consequently over every sequence of
repaired purchases whose names are known in the ledger, every stored
`Cost Per Unit` is monotonically non-decreasing. -/
theorem process_purchase_intended_cost_monotone :
    (∀ (name : String) (q : ℚ) (unit : String) (tc : ℚ) (db : Db) (io : IoFate)
       (r : Ingredient) (k : ℚ),
      (db.ingredients.map Ingredient.id).Nodup →
      findIng name db.ingredients = some r →
      q ≠ 0 →
      purchaseConvertedQty q unit r db.units = some k →
      k ≠ 0 →
      io.updateOk = true →
      (process_ingredient_purchase_intended name q unit tc db io).1.1 = true ∧
      findIng name (process_ingredient_purchase_intended name q unit tc db io).2.ingredients =
        some ⟨r.id, r.name, r.unit, r.quantity + k,
          if tc / k > r.cost_per_unit then tc / k else r.cost_per_unit⟩) ∧
    (∀ (cmds : List PurchaseCmd) (db0 : Db),
      (db0.ingredients.map Ingredient.id).Nodup →
      (∀ c ∈ cmds, (findIng c.name db0.ingredients).isSome) →
      CostMono db0.ingredients (runPurchasesRepaired cmds db0).ingredients) := by
  constructor
  · intro name q unit tc db io r k hnd hfind hq hconv hk hio
    have hmem : r ∈ db.ingredients := findIng_mem hfind
    simp only [process_ingredient_purchase_intended]
    rw [if_neg hq]
    simp only [hfind, hconv]
    rw [if_neg hk]
    by_cases hgt : tc / k > r.cost_per_unit
    · rw [if_pos hgt]
      rw [appendPriceLogRepaired_ingredients, hio,
        update_row_ok hmem ⟨some (r.quantity + k), some (tc / k)⟩]
      refine ⟨rfl, ?_⟩
      rw [findIng_applyUpdFirst hnd hfind ⟨some (r.quantity + k), some (tc / k)⟩]
      rw [if_pos hgt]
      rfl
    · rw [if_neg hgt]
      rw [hio, update_row_ok hmem ⟨some (r.quantity + k), none⟩]
      refine ⟨rfl, ?_⟩
      rw [findIng_applyUpdFirst hnd hfind ⟨some (r.quantity + k), none⟩]
      rw [if_neg hgt]
      rfl
  · intro cmds
    induction cmds with
    | nil => intro db0 _ _; exact costMono_refl _
    | cons c cs ih =>
      intro db0 hnd hknown
      have h1 : CostMono db0.ingredients
          ((process_ingredient_purchase_intended c.name c.quantity c.unit c.total_cost db0 c.io).2.ingredients) :=
        purchase_step_costMono c.name c.quantity c.unit c.total_cost db0 c.io hnd
          (hknown c (List.mem_cons_self c cs))
      have hnd1 : (((process_ingredient_purchase_intended c.name c.quantity c.unit c.total_cost db0
          c.io).2.ingredients).map Ingredient.id).Nodup := by
        rw [ids_eq_of_costMono h1]
        exact hnd
      have hknown1 : ∀ c' ∈ cs, (findIng c'.name
          (process_ingredient_purchase_intended c.name c.quantity c.unit c.total_cost db0
            c.io).2.ingredients).isSome :=
        fun c' hc' => findIng_isSome_of_costMono h1 c'.name
          (hknown c' (List.mem_cons_of_mem _ hc'))
      exact costMono_trans h1 (ih _ hnd1 hknown1)

/-! ## C7 (support: the repaired path) -/

/-- Support for C7, about the *repaired* batch price path: it writes
`new_price / converted_quantity` to the cost cell *unconditionally* —
no comparison with the stored cost, so in particular it lowers the cost
when the computed value is below the current one — and appends the
change to the `Price_History` audit trail. -/
theorem update_cost_per_unit_unconditional_intended :
    ∀ (name : String) (q : ℚ) (unit : String) (p : ℚ) (db : Db) (io : IoFate)
      (r : Ingredient) (k : ℚ),
      (db.ingredients.map Ingredient.id).Nodup →
      findIng name db.ingredients = some r →
      calculate_converted_quantity q unit r.unit db.units = some k →
      k ≠ 0 →
      io.updateOk = true →
      io.histOk = true →
      (update_ingredient_cost_per_unit_intended name q unit p db io).1 = true ∧
      findIng name (update_ingredient_cost_per_unit_intended name q unit p db io).2.ingredients =
        some ⟨r.id, r.name, r.unit, r.quantity, p / k⟩ ∧
      (update_ingredient_cost_per_unit_intended name q unit p db io).2.history =
        db.history ++ [⟨r.id, r.cost_per_unit, p / k⟩] := by
  intro name q unit p db io r k hnd hfind hconv hk hio hhist
  have hmem : r ∈ db.ingredients := findIng_mem hfind
  simp only [update_ingredient_cost_per_unit_intended, hfind, hconv]
  rw [if_neg hk, hio, update_row_ok hmem ⟨none, some (p / k)⟩]
  refine ⟨rfl, ?_, ?_⟩
  · show findIng name
      (appendPriceLogRepaired ⟨applyUpdFirst r.id ⟨none, some (p / k)⟩ db.ingredients, db.units,
        db.config, db.history⟩ io.histOk ⟨r.id, r.cost_per_unit, p / k⟩).ingredients =
      some ⟨r.id, r.name, r.unit, r.quantity, p / k⟩
    rw [appendPriceLogRepaired_ingredients]
    rw [findIng_applyUpdFirst hnd hfind ⟨none, some (p / k)⟩]
    rfl
  · show (appendPriceLogRepaired ⟨applyUpdFirst r.id ⟨none, some (p / k)⟩ db.ingredients, db.units,
        db.config, db.history⟩ io.histOk ⟨r.id, r.cost_per_unit, p / k⟩).history =
      db.history ++ [⟨r.id, r.cost_per_unit, p / k⟩]
    rw [hhist]
    rfl

/-! ## C4 (support: the repaired path) -/

/-- C1 fails on the code: the module's *effective* `adjust_ingredient_stock`
(the second definition, line 806, which shadows the guarded first
definition at line 488) is the one every adjustment and usage request
reaches, and it never fails with `InsufficientStock`.  At `Flour = 5 kg`,
`Used 100 kg of Flour`: as written the call raises `NameError` on the
undefined `STOCK_QUANTITY_KEY` (a generic crash, not `InsufficientStock`);
with that name read as the `Quantity` column it plainly stands for, the
call *succeeds* and stores the negative quantity `-95`.  Only the dead,
shadowed first definition refuses with `InsufficientStock` and leaves
the record unchanged, as the claim demands. -/
theorem adjust_stock_negative_guard_code_bug :
    adjust_ingredient_stock "Flour" 100 "kg" false
        ⟨[⟨"ING001", "Flour", "kg", 5, 2⟩], [], [], []⟩ ⟨true, true, true, true⟩ =
      ((false, OpStatus.crashNameError), ⟨[⟨"ING001", "Flour", "kg", 5, 2⟩], [], [], []⟩) ∧
    adjust_ingredient_stock_fixedkey "Flour" 100 "kg" false
        ⟨[⟨"ING001", "Flour", "kg", 5, 2⟩], [], [], []⟩ ⟨true, true, true, true⟩ =
      ((true, OpStatus.ok), ⟨[⟨"ING001", "Flour", "kg", -95, 2⟩], [], [], []⟩) ∧
    ((-95 : ℚ) < 0) ∧
    adjust_ingredient_stock_shadowed "Flour" "decrease" 100 "kg"
        ⟨[⟨"ING001", "Flour", "kg", 5, 2⟩], [], [], []⟩ ⟨true, true, true, true⟩ =
      ((false, OpStatus.insufficientStock), ⟨[⟨"ING001", "Flour", "kg", 5, 2⟩], [], [], []⟩) := by
  refine ⟨?_, ?_, by norm_num, ?_⟩
  · simp [adjust_ingredient_stock, findIng]
  · norm_num [adjust_ingredient_stock_fixedkey, findIng, calculate_converted_quantity,
      update_row_by_id, findRowById, applyUpdFirst, applyRow]
  · have hd : pynorm "decrease" = "decrease" := by decide
    have hne1 : ("decrease" : String) ≠ "increase" := by decide
    have hne2 : ("decrease" : String) ≠ "add" := by decide
    have heq : ("decrease" : String) = "decrease" := rfl
    norm_num [adjust_ingredient_stock_shadowed, findIng, hd, hne1, hne2, heq]

/-! ## C3 -/

/-- C3 fails on the code: `atomic_combined_update` never issues its
repository write.  At `Flour = (2 kg, cost 1)`,
`AtomicCombinedSet(Flour, 5, kg, 10)` raises `NameError` while building
the `updates` dict from the undefined `STOCK_QUANTITY_KEY` (line 316),
before `update_row_by_id` is called, so a subsequent read still sees
quantity `2`, not the converted `5`.  With the two undefined names
repaired as intended, the very same call issues the single two-field
write and the read-back matches the claim (`5 kg`, cost `10/5 = 2`). -/
theorem atomic_combined_update_code_bug :
    atomic_combined_update "Flour" 5 "kg" 10
        ⟨[⟨"ING001", "Flour", "kg", 2, 1⟩], [], [], []⟩ ⟨true, true, true, true⟩ =
      ((false, OpStatus.crashNameError), ⟨[⟨"ING001", "Flour", "kg", 2, 1⟩], [], [], []⟩) ∧
    findIng "Flour"
      (atomic_combined_update "Flour" 5 "kg" 10
        ⟨[⟨"ING001", "Flour", "kg", 2, 1⟩], [], [], []⟩ ⟨true, true, true, true⟩).2.ingredients =
      some ⟨"ING001", "Flour", "kg", 2, 1⟩ ∧
    (2 : ℚ) ≠ 5 ∧
    atomic_combined_update_intended "Flour" 5 "kg" 10
        ⟨[⟨"ING001", "Flour", "kg", 2, 1⟩], [], [], []⟩ ⟨true, true, true, true⟩ =
      ((true, OpStatus.ok),
       ⟨[⟨"ING001", "Flour", "kg", 5, 2⟩], [], [], [⟨"ING001", 1, 2⟩]⟩) := by
  have hcrash : atomic_combined_update "Flour" 5 "kg" 10
      ⟨[⟨"ING001", "Flour", "kg", 2, 1⟩], [], [], []⟩ ⟨true, true, true, true⟩ =
      ((false, OpStatus.crashNameError), ⟨[⟨"ING001", "Flour", "kg", 2, 1⟩], [], [], []⟩) := by
    norm_num [atomic_combined_update, findIng, calculate_converted_quantity]
  refine ⟨hcrash, ?_, by norm_num, ?_⟩
  · rw [hcrash]
    simp [findIng]
  · norm_num [atomic_combined_update_intended, findIng, calculate_converted_quantity,
      update_row_by_id, findRowById, applyUpdFirst, applyRow, appendPriceLogRepaired]

/-! ## C9 -/

/-- C9: the dispatcher is exactly first-match-wins over its fixed,
ordered rule table — (i) `dispatch_nlp_action` equals the ordered-rules
evaluation of `nlpRules` on the stripped text and always yields a reply
string; (ii) when the rules before `p` all fail and `p` matches, the
evaluation dispatches `p`'s handler and nothing later; (iii) when no
rule matches, the reply is the fixed fallback/help message — never an
exception. -/
theorem dispatch_first_match_spec :
    (∀ (m : NlpMatchers) (h : NlpHandlers) (raw : String),
      dispatch_nlp_action m h raw = firstMatchReply (nlpRules m h) ⟨pyStrip raw.data⟩) ∧
    (∀ (l1 : List ((String → Bool) × (String → String)))
       (p : (String → Bool) × (String → String))
       (l2 : List ((String → Bool) × (String → String))) (text : String),
      (∀ q ∈ l1, q.1 text = false) → p.1 text = true →
      firstMatchReply (l1 ++ p :: l2) text = p.2 text) ∧
    (∀ (rules : List ((String → Bool) × (String → String))) (text : String),
      (∀ q ∈ rules, q.1 text = false) →
      firstMatchReply rules text = INGREDIENTS_MANAGER_FALLBACK_MESSAGE) := by
  refine ⟨fun m h raw => rfl, ?_, ?_⟩
  · intro l1 p l2 text hl1 hp
    induction l1 with
    | nil =>
      simp only [List.nil_append, firstMatchReply]
      rw [hp]
      rfl
    | cons a as ih =>
      simp only [List.cons_append, firstMatchReply]
      rw [hl1 a (List.mem_cons_self a as)]
      simp only [Bool.false_eq_true, if_false]
      exact ih fun q hq => hl1 q (List.mem_cons_of_mem _ hq)
  · intro rules text hall
    induction rules with
    | nil => rfl
    | cons a as ih =>
      simp only [firstMatchReply]
      rw [hall a (List.mem_cons_self a as)]
      simp only [Bool.false_eq_true, if_false]
      exact ih fun q hq => hall q (List.mem_cons_of_mem _ hq)

/-- Witness for C9 with concrete rules: only the `STOP` matcher accepts
its keyword; `"qwerty nonsense"` matches no rule and yields the fixed
fallback message, while `"STOP"` dispatches the stop handler. -/
theorem dispatch_first_match_spec_witness :
    dispatch_nlp_action
        ⟨fun _ => false, fun _ => false, fun _ => false, fun _ => false, fun _ => false,
         fun _ => false, fun _ => false, fun _ => false, fun _ => false, fun _ => false,
         fun s => s == "STOP"⟩
        ⟨fun _ => "r1", fun _ => "r2", fun _ => "r3", fun _ => "r4", fun _ => "r5",
         fun _ => "r6", fun _ => "r7", fun _ => "r8", fun _ => "r9", fun _ => "r10",
         fun _ => "bye"⟩ "qwerty nonsense" = INGREDIENTS_MANAGER_FALLBACK_MESSAGE ∧
    dispatch_nlp_action
        ⟨fun _ => false, fun _ => false, fun _ => false, fun _ => false, fun _ => false,
         fun _ => false, fun _ => false, fun _ => false, fun _ => false, fun _ => false,
         fun s => s == "STOP"⟩
        ⟨fun _ => "r1", fun _ => "r2", fun _ => "r3", fun _ => "r4", fun _ => "r5",
         fun _ => "r6", fun _ => "r7", fun _ => "r8", fun _ => "r9", fun _ => "r10",
         fun _ => "bye"⟩ "STOP" = "bye" := by
  constructor
  · rw [dispatch_first_match_spec.1]
    refine dispatch_first_match_spec.2.2 _ _ ?_
    intro q hq
    simp only [nlpRules, List.mem_cons, List.mem_nil_iff, or_false] at hq
    rcases hq with rfl | rfl | rfl | rfl | rfl | rfl | rfl | rfl | rfl | rfl | rfl <;> rfl
  · rw [dispatch_first_match_spec.1]
    refine dispatch_first_match_spec.2.1
      [(fun _ => false, fun _ => "r1"), (fun _ => false, fun _ => "r2"),
       (fun _ => false, fun _ => "r3"), (fun _ => false, fun _ => "r4"),
       (fun _ => false, fun _ => "r5"), (fun _ => false, fun _ => "r6"),
       (fun _ => false, fun _ => "r7"), (fun _ => false, fun _ => "r8"),
       (fun _ => false, fun _ => "r9"), (fun _ => false, fun _ => "r10")]
      (fun s => s == "STOP", fun _ => "bye") [] _ ?_ (by decide)
    intro q hq
    simp only [List.mem_cons, List.mem_nil_iff, or_false] at hq
    rcases hq with rfl | rfl | rfl | rfl | rfl | rfl | rfl | rfl | rfl | rfl <;> rfl

/-! ## C2 -/

/-- C2 fails on the code: the known-ingredient purchase path performs
*no write at all* — line 677 assigns the un-awaited
`queries.update_row_by_id` coroutine to `update_success`, which is
truthy, so success is reported with nothing stored.  (i) In general, a
purchase leaves the whole database unchanged on every input; (ii) at
the spec's own scenario — `Flour` at `1 kg` cost `5`,
`Bought 1 kg Flour for 6`, healthy backend — the call reports
`STOCK_ADJUSTED_AND_PRICE_UPDATED` yet a read still sees quantity `1`
and cost `5 ≠ 6`; (iii) with the missing `await`s repaired the same
purchase yields exactly the claimed post-state (quantity `2`, cost `6`;
the monotone-cost policy for the repaired path is
`process_purchase_intended_cost_monotone`). -/
theorem process_purchase_never_writes_code_bug :
    (∀ (name : String) (q : ℚ) (unit : String) (tc : ℚ) (db : Db) (io : IoFate),
      (process_ingredient_purchase name q unit tc db io).2 = db) ∧
    process_ingredient_purchase "Flour" 1 "kg" 6
        ⟨[⟨"ING001", "Flour", "kg", 1, 5⟩], [], [], []⟩ ⟨true, true, true, true⟩ =
      ((true, OpStatus.stockAdjustedAndPriceUpdated),
       ⟨[⟨"ING001", "Flour", "kg", 1, 5⟩], [], [], []⟩) ∧
    (5 : ℚ) ≠ 6 ∧
    findIng "Flour"
      (process_ingredient_purchase_intended "Flour" 1 "kg" 6
        ⟨[⟨"ING001", "Flour", "kg", 1, 5⟩], [], [], []⟩ ⟨true, true, true, true⟩).2.ingredients =
      some ⟨"ING001", "Flour", "kg", 2, 6⟩ := by
  refine ⟨?_, ?_, by norm_num, ?_⟩
  · intro name q unit tc db io
    simp only [process_ingredient_purchase, add_new_ingredient, log_price_history]
    split
    · rfl
    · split
      · split
        · rfl
        · split
          · rfl
          · split <;> rfl
      · rfl
  · norm_num [process_ingredient_purchase, findIng, purchaseConvertedQty, log_price_history]
  · norm_num [process_ingredient_purchase_intended, findIng, purchaseConvertedQty,
      appendPriceLogRepaired, update_row_by_id, findRowById, applyUpdFirst, applyRow]

/-! ## C4 -/

/-- C7 fails on the code in its audit clause: the unconditional cost
write is real (line 395 is awaited) — at `Flour` stored with cost `5`,
`1 kg Flour now costs 2` rewrites the cost to `2 < 5`, exactly the
lowering the purchase path would refuse — but "logs the change to the
audit trail" is false: `log_price_history` never awaits
`queries.append_row` (line 124), so `Price_History` stays empty while
the call reports success.  With that `await` repaired, the same call
both writes the cost and appends the `5 → 2` audit entry. -/
theorem update_cost_never_logs_code_bug :
    update_ingredient_cost_per_unit "Flour" 1 "kg" 2
        ⟨[⟨"ING001", "Flour", "kg", 3, 5⟩], [], [], []⟩ ⟨true, true, true, true⟩ =
      (true, ⟨[⟨"ING001", "Flour", "kg", 3, 2⟩], [], [], []⟩) ∧
    (2 : ℚ) < 5 ∧
    update_ingredient_cost_per_unit_intended "Flour" 1 "kg" 2
        ⟨[⟨"ING001", "Flour", "kg", 3, 5⟩], [], [], []⟩ ⟨true, true, true, true⟩ =
      (true, ⟨[⟨"ING001", "Flour", "kg", 3, 2⟩], [], [], [⟨"ING001", 5, 2⟩]⟩) := by
  refine ⟨?_, by norm_num, ?_⟩
  · norm_num [update_ingredient_cost_per_unit, findIng, calculate_converted_quantity,
      update_row_by_id, findRowById, applyUpdFirst, applyRow, log_price_history]
  · norm_num [update_ingredient_cost_per_unit_intended, findIng, calculate_converted_quantity,
      update_row_by_id, findRowById, applyUpdFirst, applyRow, appendPriceLogRepaired]
